import Mathlib

/-!
Shallow embedding of the leveldb-reader repository.

Covered source files: src/leveldb/util.py (byte utilities),
src/leveldb/log_reader.py (record-log framing and write-ahead-log entry
decoding), src/leveldb/table_reader.py (table-block checksum verification),
src/leveldb/db.py (the snapshot merge of table and log data), and
src/indexeddb.py (IndexedDB key-prefix codec and the V8 value
deserializer).

Modelling conventions: a byte stream is a list of naturals (each element a
byte value); Python file/BytesIO reads become explicit state passing that
returns the unconsumed tail; Python assertion failures and decode
exceptions become Option.none; Python dicts become association lists with
insertion-order update-in-place semantics, and Python sets become
duplicate-free lists in insertion order.
-/

namespace LevelDBReader

abbrev Bytes := List Nat

/-- util.py read_safe: read exactly n bytes from the stream, failing on a
short read. -/
def read_safe (s : Bytes) (n : Nat) : Option (Bytes × Bytes) :=
  if n ≤ s.length then some (s.take n, s.drop n) else none

/-- stream.read(1)[0]: one byte; indexing an empty read is a failure. -/
def readByte : Bytes → Option (Nat × Bytes)
  | [] => none
  | b :: r => some (b, r)

/-- int.from_bytes(bs, little). -/
def fromLE (bs : Bytes) : Nat := bs.foldr (fun b acc => b + 256 * acc) 0

/-- int.to_bytes(n, w, little): w little-endian bytes of n. -/
def toLE : Nat → Nat → Bytes
  | 0, _ => []
  | w + 1, n => n % 256 :: toLE w (n / 256)

/-- Loop body of util.py read_varint; the first argument counts the loop
iterations still allowed (max_bytes minus the current byte_index), the
second is the current byte_index.  The byte has its top bit cleared
(byte &= ~MASK) and is accumulated shifted by 7 * byte_index; a byte with
the top bit clear ends the loop, and so does running out of allowed
iterations, in both cases returning the accumulated value. -/
def read_varint_go : Nat → Nat → Nat → Bytes → Option (Nat × Bytes)
  | 0, _, acc, s => some (acc, s)
  | remaining + 1, byteIndex, acc, s =>
    match s with
    | [] => none
    | b :: rest =>
      let low := if b &&& 128 = 0 then b else b - 128
      let acc' := acc + low * 2 ^ (7 * byteIndex)
      if b &&& 128 = 0 then some (acc', rest)
      else read_varint_go remaining (byteIndex + 1) acc' rest

/-- util.py read_varint(stream, max_bytes). -/
def read_varint (s : Bytes) (maxBytes : Nat) : Option (Nat × Bytes) :=
  read_varint_go maxBytes 0 0 s

/-- util.py read_varint32. -/
def read_varint32 (s : Bytes) : Option (Nat × Bytes) := read_varint s 5

/-- util.py read_varint64. -/
def read_varint64 (s : Bytes) : Option (Nat × Bytes) := read_varint s 10

/-- The little-endian 7-bit-group value of a varint byte list (top bits
stripped): the value read_varint accumulates over exactly these bytes. -/
def varintVal : Bytes → Nat
  | [] => 0
  | b :: rest => (if b &&& 128 = 0 then b else b - 128) + 128 * varintVal rest

/-- util.py read_sint32: read a varint32 n and zigzag-decode
((n AND 0xFFFFFFFF) >> 1) XOR -(n AND 1).  The right operand of the Python
XOR is 0 or -1; XOR with 0 is the identity and XOR with -1 is the
two's-complement bitwise NOT, which on integers is x XOR -1 = -x - 1, so the
expression is translated by that case split. -/
def read_sint32 (s : Bytes) : Option (Int × Bytes) :=
  match read_varint32 s with
  | none => none
  | some (n, rest) =>
    let x : Nat := (n &&& 0xFFFFFFFF) >>> 1
    some (if n &&& 1 = 1 then -(x : Int) - 1 else (x : Int), rest)

/-- util.py unmask_leveldb_crc32c.  Python computes masked - kMaskDelta over
the integers and then adds UINT_MAX + 1 = 2^32 and masks to 32 bits; for a
nonnegative masked value below 2^32 that equals the expression below (the
subtraction never underflows because 2^32 is added first). -/
def unmask_leveldb_crc32c (masked : Nat) : Nat :=
  let UINT_MAX := 2 ^ 32 - 1
  let val := (masked + (UINT_MAX + 1) - 0xA282EAD8) &&& UINT_MAX
  ((val >>> 17) ||| (val <<< 15)) &&& UINT_MAX

/-- Python list slice buf[:-t]: for t > 0 it keeps all but the last t
elements, but -0 is 0, so for t = 0 it is buf[:0], the empty list. -/
def pySliceDropLast (l : Bytes) (t : Nat) : Bytes :=
  l.take (if t = 0 then 0 else l.length - t)

/-- util.py int64_to_bytes_compact: write 8 little-endian bytes, count the
trailing zero bytes over indices 7 down to 1 (stopping at the first nonzero
byte), and return buf[:-count].  int.to_bytes fails for values of 2^64 or
more. -/
def int64_to_bytes_compact (val : Nat) : Option Bytes :=
  if val < 2 ^ 64 then
    let buf := toLE 8 val
    let tzc := ((buf.drop 1).reverse.takeWhile (fun b => b == 0)).length
    some (pySliceDropLast buf tzc)
  else none

/-- Modelled from the spec: the crc32c module imported by
src/leveldb/log_reader.py and src/leveldb/table_reader.py is not under
src/.  Spec section 4.2 specifies CRC32C (the Castagnoli polynomial) with
the standard reflected algorithm; this is one bit step of it. -/
def crc32c_step (c : Nat) : Nat :=
  if c &&& 1 = 1 then (c >>> 1) ^^^ 0x82F63B78 else c >>> 1

/-- Modelled from the spec: folding one byte into a reflected CRC32C
state. -/
def crc32c_byte (c b : Nat) : Nat := crc32c_step^[8] (c ^^^ (b &&& 0xFF))

/-- Modelled from the spec: the raw (pre/post-conditioning-free) CRC32C
state after folding a byte list into an initial state. -/
def crc32c_raw (init : Nat) (data : Bytes) : Nat := data.foldl crc32c_byte init

/-- Modelled from the spec: crc(bytes), the full CRC32C of a single
slice. -/
def crc (data : Bytes) : Nat := crc32c_raw 0xFFFFFFFF data ^^^ 0xFFFFFFFF

/-- Modelled from the spec: crc_update(prev, bytes), continuing an existing
CRC so that crc_update (crc a) b is the CRC of a followed by b. -/
def crc_update (prev : Nat) (data : Bytes) : Nat :=
  crc32c_raw (prev ^^^ 0xFFFFFFFF) data ^^^ 0xFFFFFFFF

/-- The LevelDB CRC masking transform (the inverse of
unmask_leveldb_crc32c): rotate left by 17 and add the mask delta, in 32-bit
arithmetic.  Used to construct well-formed concrete inputs. -/
def mask_leveldb_crc32c (c : Nat) : Nat :=
  ((((c <<< 17) ||| (c >>> 15)) &&& (2 ^ 32 - 1)) + 0xA282EAD8) &&& (2 ^ 32 - 1)

/-- src/leveldb/log_reader.py lines 31-34: a record checksum passes when
the stored (unmasked) CRC equals crc_update(crc([record_type]), data) -
the type byte is hashed first and the payload folded in afterwards. -/
def log_record_crc_ok (storedMasked t : Nat) (data : Bytes) : Bool :=
  unmask_leveldb_crc32c storedMasked == crc_update (crc [t]) data

/-- src/leveldb/table_reader.py lines 97-101: a table-block checksum passes
when the stored (unmasked) CRC equals crc_update(crc(data),
[block_type]) - the payload is hashed first and the type byte folded in
afterwards. -/
def table_block_crc_ok (storedMasked t : Nat) (data : Bytes) : Bool :=
  unmask_leveldb_crc32c storedMasked == crc_update (crc data) [t]

/-- src/leveldb/table_reader.py Block.__init__ lines 89-101: split the
fetched buffer into payload, type byte and masked CRC, and verify the
checksum, returning the payload and type byte. -/
def block_verify (buf : Bytes) (size : Nat) : Option (Bytes × Nat) :=
  if buf.length = size + 5 then
    match buf.drop size with
    | t :: crcBytes =>
      if table_block_crc_ok (fromLE crcBytes) t (buf.take size) then
        some (buf.take size, t)
      else none
    | [] => none
  else none

/-! Python dict / set model.  A dict is an association list in insertion
order with unique keys by construction; assignment replaces in place,
update folds the right dict's pairs over assignment, pop removes the key,
and a set is a duplicate-free list in insertion order (set iteration order
is modelled as insertion order). -/

abbrev Dict := List (Bytes × Bytes)

/-- Python k in d. -/
def dictContains (d : Dict) (k : Bytes) : Bool := d.any (fun p => p.1 == k)

/-- Python d[k] = v: replace in place if the key is present, else append. -/
def dictSet (d : Dict) (k : Bytes) (v : Bytes) : Dict :=
  if dictContains d k then
    d.map (fun p => if p.1 == k then (k, v) else p)
  else d ++ [(k, v)]

/-- Python d.update(d2): assign every pair of d2 into d, in order. -/
def dictUpdate (d d2 : Dict) : Dict :=
  d2.foldl (fun acc p => dictSet acc p.1 p.2) d

/-- Python d.get(k) / d[k]: the value at the first matching key. -/
def dictLookup : Dict → Bytes → Option Bytes
  | [], _ => none
  | p :: rest, k => if p.1 == k then some p.2 else dictLookup rest k

/-- Python d.pop(k, None), the removal part: drop the key. -/
def dictPop (d : Dict) (k : Bytes) : Dict := d.filter (fun p => p.1 != k)

/-- Python d.keys(). -/
def dictKeys (d : Dict) : List Bytes := d.map Prod.fst

/-- Python s.add(k) on a set. -/
def setAdd (s : List Bytes) (k : Bytes) : List Bytes :=
  if s.contains k then s else s ++ [k]

/-- Python s.update(s2) on sets. -/
def setUnion (s s2 : List Bytes) : List Bytes := s2.foldl setAdd s

/-! src/leveldb/db.py: the snapshot merge (DB.__init__ lines 36-68).  Table
files and the log file have already been decoded; the merge consumes their
results. -/

/-- The decoded contents of one table file (table_reader.Table):
entries, meta_entries and deleted_entries. -/
structure TableData where
  entries : Dict
  meta_entries : Dict
  deleted_entries : Dict

/-- The decoded contents of the current log file
(log_reader.get_log_entries): live entries and the deleted-key set. -/
structure LogData where
  entries : Dict
  deleted_keys : List Bytes

/-- The three maps of the merged snapshot (DB.entries, DB.meta_entries,
DB.deleted_entries). -/
structure Snapshot where
  entries : Dict
  meta_entries : Dict
  deleted_entries : Dict

/-- db.py lines 62-63: for every key of deleted_entries, pop it from
entries. -/
def purgeFold (e : Dict) (d : Dict) : Dict :=
  d.foldl (fun acc p => dictPop acc p.1) e

/-- db.py lines 65-68, one deleted key: pop it from entries; if the popped
value is truthy (present and a nonempty byte string) move it into
deleted_entries.  The state is (entries, deleted_entries). -/
def moveStep (st : Dict × Dict) (k : Bytes) : Dict × Dict :=
  match dictLookup st.1 k with
  | some v => (dictPop st.1 k, if v ≠ [] then dictSet st.2 k v else st.2)
  | none => st

/-- db.py lines 65-68: process every key of the log's deleted-key set. -/
def moveFold (st : Dict × Dict) (dks : List Bytes) : Dict × Dict :=
  dks.foldl moveStep st

/-- db.py DB.__init__ lines 36-68: accumulate the three maps over the table
files with dict.update, overlay the log's live entries onto entries, purge
every deleted_entries key from entries, and then move each log-deleted key
out of entries (into deleted_entries when its popped value is truthy). -/
def dbMerge (tables : List TableData) (log : Option LogData) : Snapshot :=
  let e0 := tables.foldl (fun acc t => dictUpdate acc t.entries) []
  let m0 := tables.foldl (fun acc t => dictUpdate acc t.meta_entries) []
  let d0 := tables.foldl (fun acc t => dictUpdate acc t.deleted_entries) []
  let eL := match log with
    | none => e0
    | some l => dictUpdate e0 l.entries
  let dks := match log with
    | none => []
    | some l => l.deleted_keys
  let st := moveFold (purgeFold eL d0, d0) dks
  ⟨st.1, m0, st.2⟩

/-! src/leveldb/log_reader.py: 32 KiB block framing, record reassembly and
write-ahead-log entry decoding.  The bounded loops are written with a fuel
argument that only limits the number of iterations; callers pass fuel that
provably exceeds the number of iterations any input of that size can take,
so fuel exhaustion (none) can only hide nontermination that the Python
loops do not exhibit either. -/

def RECORD_TYPE_FULL : Nat := 0x1
def RECORD_TYPE_FIRST : Nat := 0x2
def RECORD_TYPE_MIDDLE : Nat := 0x3
def RECORD_TYPE_LAST : Nat := 0x4

/-- log_reader.__get_record: read masked CRC (4 bytes LE), length (2 bytes
LE), type (1 byte) and the payload, and verify the checksum (type byte
first, then payload).  Returns ((data, record_type), rest-of-block). -/
def get_record (block : Bytes) : Option ((Bytes × Nat) × Bytes) :=
  match read_safe block 4 with
  | none => none
  | some (crcBytes, s1) =>
    match read_safe s1 2 with
    | none => none
    | some (lenBytes, s2) =>
      match readByte s2 with
      | none => none
      | some (t, s3) =>
        match read_safe s3 (fromLE lenBytes) with
        | none => none
        | some (data, s4) =>
          if log_record_crc_ok (fromLE crcBytes) t data then
            some ((data, t), s4)
          else none

/-- log_reader.__records_left_in_block: more than 6 bytes remain. -/
def records_left_in_block (s : Bytes) : Bool := decide (6 < s.length)

/-- log_reader.__get_next_block: slice the file into 32 KiB blocks (an
empty read ends the file).  Fuel-bounded; each step removes a nonempty
chunk. -/
def fileBlocks : Nat → Bytes → List Bytes
  | 0, _ => []
  | _ + 1, [] => []
  | fuel + 1, b :: rest =>
    (b :: rest).take 32768 :: fileBlocks fuel ((b :: rest).drop 32768)

/-- log_reader.get_log_records inner fragment loop: after a FIRST record,
keep reading MIDDLE fragments until a LAST, moving to the next block when
fewer than 7 bytes remain in the current one; a missing next block or any
other record type fails.  Returns (full record, rest of current block,
remaining blocks). -/
def fragChain : Nat → Bytes → Bytes → List Bytes →
    Option (Bytes × Bytes × List Bytes)
  | 0, _, _, _ => none
  | fuel + 1, acc, cur, blocks =>
    if records_left_in_block cur then
      match get_record cur with
      | none => none
      | some ((data, t), rest) =>
        if t = RECORD_TYPE_MIDDLE then fragChain fuel (acc ++ data) rest blocks
        else if t = RECORD_TYPE_LAST then some (acc ++ data, rest, blocks)
        else none
    else
      match blocks with
      | [] => none
      | b :: bs => fragChain fuel acc b bs

/-- log_reader.get_log_records outer loop: while the current block has
records left read one; a FULL record is retained as is, a FIRST starts the
fragment chain, anything else fails.  When the block is exhausted, move to
the next block; when no block is left, return the collected records. -/
def recordsLoop : Nat → Bytes → List Bytes → List Bytes → Option (List Bytes)
  | 0, _, _, _ => none
  | fuel + 1, cur, blocks, acc =>
    if records_left_in_block cur then
      match get_record cur with
      | none => none
      | some ((data, t), rest) =>
        if t = RECORD_TYPE_FULL then recordsLoop fuel rest blocks (acc ++ [data])
        else if t = RECORD_TYPE_FIRST then
          match fragChain fuel data rest blocks with
          | none => none
          | some (full, rest', blocks') =>
            recordsLoop fuel rest' blocks' (acc ++ [full])
        else none
    else
      match blocks with
      | [] => some acc
      | b :: bs => recordsLoop fuel b bs acc

/-- log_reader.get_log_records: reassembled logical records of a log (or
manifest) file. -/
def get_log_records (file : Bytes) : Option (List Bytes) :=
  recordsLoop (4 * file.length + 8) [] (fileBlocks (file.length + 1) file) []

def kTypeDeletion : Nat := 0x0
def kTypeValue : Nat := 0x1

/-- log_reader.__get_record_entries entry loop: while bytes remain, read an
operation: kind 1 is key-length/key/value-length/value assigned into the
entries dict, kind 0 is key-length/key added to the deleted-key set, any
other kind fails. -/
def opsLoop : Nat → Dict → List Bytes → Bytes → Option (Dict × List Bytes)
  | 0, _, _, _ => none
  | fuel + 1, es, ds, s =>
    match s with
    | [] => some (es, ds)
    | _ :: _ =>
      match readByte s with
      | none => none
      | some (t, s1) =>
        if t = kTypeValue then
          match read_varint32 s1 with
          | none => none
          | some (keyLen, s2) =>
            match read_safe s2 keyLen with
            | none => none
            | some (key, s3) =>
              match read_varint32 s3 with
              | none => none
              | some (valLen, s4) =>
                match read_safe s4 valLen with
                | none => none
                | some (val, s5) => opsLoop fuel (dictSet es key val) ds s5
        else if t = kTypeDeletion then
          match read_varint32 s1 with
          | none => none
          | some (keyLen, s2) =>
            match read_safe s2 keyLen with
            | none => none
            | some (key, s3) => opsLoop fuel es (setAdd ds key) s3
        else none

/-- log_reader.__get_record_entries: read the 8-byte sequence and 4-byte
declared count, decode the operations, and assert that the number of live
entries plus deleted keys equals the declared count. -/
def get_record_entries (record : Bytes) : Option (Dict × List Bytes) :=
  match read_safe record 8 with
  | none => none
  | some (_, s1) =>
    match read_safe s1 4 with
    | none => none
    | some (countBytes, s2) =>
      match opsLoop (s2.length + 1) [] [] s2 with
      | none => none
      | some (es, ds) =>
        if es.length + ds.length = fromLE countBytes then some (es, ds)
        else none

/-- The declared operation count of a logical record: the 4 little-endian
bytes after the 8-byte sequence number. -/
def declaredCount (record : Bytes) : Nat := fromLE ((record.drop 8).take 4)

/-- log_reader.get_log_entries: decode every reassembled record and merge
with dict.update / set.update. -/
def get_log_entries (file : Bytes) : Option (Dict × List Bytes) :=
  match get_log_records file with
  | none => none
  | some records =>
    records.foldlM
      (fun st r =>
        match get_record_entries r with
        | none => none
        | some (res, rds) => some (dictUpdate st.1 res, setUnion st.2 rds))
      (([], []) : Dict × List Bytes)

/-- The total declared operation count over all reassembled records of a
log file. -/
def sumDeclaredCounts (file : Bytes) : Option Nat :=
  match get_log_records file with
  | none => none
  | some records => some (records.map declaredCount).sum

/-! src/leveldb/table_reader.py lines 111-154: decoding the entries of one
(decompressed, checksum-verified) block, and lines 50-57: the accumulation
of the data blocks into a table's three maps.  Python's plain
stream.read(n) (which may return fewer than n bytes) is List.take/drop;
the stream position data_stream.tell() is the original length minus the
remaining length. -/

/-- The while-loop of Block.__init__ (lines 122-154): while the position
is below the restart offset, read the shared/non_shared/value varints,
rebuild the key from the previous key's shared prefix (a shared prefix on
the first entry subscripts None and fails), require the key longer than 8
bytes, split off the 8-byte internal trailer, and route the entry by
is_meta and the trailer's low byte (1 value, 0 deletion, else failure). -/
def blockEntriesLoop (isMeta : Bool) (restartOffset dataLen : Nat) :
    Nat → Dict → Dict → Dict → Option Bytes → Bytes → Option (Dict × Dict × Dict)
  | 0, _, _, _, _, _ => none
  | fuel + 1, es, ms, ds, prevKey, s =>
    if dataLen - s.length < restartOffset then
      match read_varint32 s with
      | none => none
      | some (shared, s1) =>
        match read_varint32 s1 with
        | none => none
        | some (nonShared, s2) =>
          match read_varint32 s2 with
          | none => none
          | some (valLen, s3) =>
            match (if 0 < shared then prevKey.map (fun q => q.take shared)
                else some []) with
            | none => none
            | some sharedData =>
              let key := sharedData ++ s3.take nonShared
              let s4 := s3.drop nonShared
              let val := s4.take valLen
              let s5 := s4.drop valLen
              if 8 < key.length then
                let internalKey := fromLE (key.drop (key.length - 8))
                let userKey := key.take (key.length - 8)
                if isMeta then
                  blockEntriesLoop isMeta restartOffset dataLen fuel
                    es (dictSet ms userKey val) ds (some key) s5
                else if internalKey &&& 0xFF = kTypeValue then
                  blockEntriesLoop isMeta restartOffset dataLen fuel
                    (dictSet es userKey val) ms ds (some key) s5
                else if internalKey &&& 0xFF = kTypeDeletion then
                  blockEntriesLoop isMeta restartOffset dataLen fuel
                    es ms (dictSet ds userKey val) (some key) s5
                else none
              else none
    else some (es, ms, ds)

/-- Block.__init__ lines 111-154 on a decompressed payload: validate the
restart count against (len - 4) / 4 (for payloads shorter than 4 bytes
Python's floor division makes the bound negative, so the nonnegative
restart count always fails the assert), compute the restart offset
(negative in Python, 0 here, both ways the entry loop does not run when
the restart array covers the payload), and decode the entries.  Returns
(entries, meta_entries, deleted_entries). -/
def block_entries (data : Bytes) (isMeta : Bool) : Option (Dict × Dict × Dict) :=
  if data.length < 4 then none
  else
    let restarts := fromLE (data.drop (data.length - 4))
    if restarts ≤ (data.length - 4) / 4 then
      blockEntriesLoop isMeta (data.length - (1 + restarts) * 4) data.length
        (data.length + 1) [] [] [] none data
    else none

/-- table_reader.py Table.__init__ lines 50-57: merge the decoded data
blocks' maps with dict.update, in order. -/
def tableFromDataBlocks (bs : List (Dict × Dict × Dict)) : TableData :=
  bs.foldl
    (fun t b =>
      ⟨dictUpdate t.entries b.1, dictUpdate t.meta_entries b.2.1,
        dictUpdate t.deleted_entries b.2.2⟩)
    ⟨[], [], []⟩

/-- A table as the full database decode produces it: Table.__init__ merges
exactly the data blocks listed by the index block, every one of them
constructed with is_meta = False (table_reader.py lines 43-48); the parsed
meta-index block is never merged. -/
def IsDecodedTable (t : TableData) : Prop :=
  ∃ bs : List (Dict × Dict × Dict),
    (∀ b ∈ bs, ∃ data : Bytes, block_entries data false = some b) ∧
    t = tableFromDataBlocks bs

/-! src/indexeddb.py: the IndexedDB key-prefix codec and the V8
structured-clone value deserializer. -/

/-- indexeddb.py IDBKey.encode_key_prefix: compact little-endian bytes of
the three ids, preceded by the byte packing (len-1) of each id into bit
fields 7..5 / 4..2 / 1..0.  Python bytes([first_byte]) raises when a length
is zero (then len - 1 is negative), which the zero-length guard models;
int.to_bytes raises for ids of 2^64 or more. -/
def encode_key_pfx (db_id obj_store_id idx_id : Nat) : Option Bytes :=
  match int64_to_bytes_compact db_id, int64_to_bytes_compact obj_store_id,
      int64_to_bytes_compact idx_id with
  | some dbB, some stB, some ixB =>
    if dbB.length = 0 ∨ stB.length = 0 ∨ ixB.length = 0 then none
    else
      some (((dbB.length - 1) <<< 5 ||| (stB.length - 1) <<< 2
              ||| (ixB.length - 1)) :: (dbB ++ stB ++ ixB))
  | _, _, _ => none

/-- indexeddb.py IDBKey.__init__ lines 51-59, exactly as the source parses
(Python precedence makes first_byte AND 0b11100000 >> 5 parse as
first_byte AND (0b11100000 >> 5), so each extracted length field masks the
low bits of the first byte without shifting it): read the three id lengths
from the first byte, then the three little-endian ids.  Returns ((db_id,
obj_store_id, index_id), rest). -/
def decode_key_pfx (s : Bytes) : Option ((Nat × Nat × Nat) × Bytes) :=
  match s with
  | [] => none
  | b :: s1 =>
    let dbLen := (b &&& (0b11100000 >>> 5)) + 1
    let stLen := (b &&& (0b00011100 >>> 2)) + 1
    let ixLen := (b &&& (0b00000011 >>> 0)) + 1
    match read_safe s1 dbLen with
    | none => none
    | some (dbB, s2) =>
      match read_safe s2 stLen with
      | none => none
      | some (stB, s3) =>
        match read_safe s3 ixLen with
        | none => none
        | some (ixB, s4) => some ((fromLE dbB, fromLE stB, fromLE ixB), s4)

/-- Modelled from the spec: section 4.8's reading of the key prefix (mask
each length field out of the first byte, then shift it down), which the
spec's design notes declare authoritative over the source's
precedence-afflicted expression. -/
def decode_key_pfx_spec (s : Bytes) : Option ((Nat × Nat × Nat) × Bytes) :=
  match s with
  | [] => none
  | b :: s1 =>
    let dbLen := ((b &&& 0b11100000) >>> 5) + 1
    let stLen := ((b &&& 0b00011100) >>> 2) + 1
    let ixLen := ((b &&& 0b00000011) >>> 0) + 1
    match read_safe s1 dbLen with
    | none => none
    | some (dbB, s2) =>
      match read_safe s2 stLen with
      | none => none
      | some (stB, s3) =>
        match read_safe s3 ixLen with
        | none => none
        | some (ixB, s4) => some ((fromLE dbB, fromLE stB, fromLE ixB), s4)

/-- The dynamic values the V8 deserializer produces.  Python strings are
modelled as their UTF-16 code-unit sequences; an IEEE-754 double is kept as
its raw 64-bit pattern (vdouble); a Python tuple appended by the array
parsers is vpair; the EndMarker namedtuple is the endMarker variant. -/
inductive V8 where
  | vnull
  | vbool (b : Bool)
  | vint (n : Int)
  | vdouble (bits : Nat)
  | vstr (units : List Nat)
  | vobj (fields : List V8)
  | varr (items : List V8)
  | vpair (k v : V8)
  | endMarker (count : Nat)

/-- Python == on the values that can reach a dict-key position (flat,
hashable values; containers are rejected before comparison ever happens).
Python's numeric cross-type equalities (True == 1, 1 == 1.0) are not
modelled; no claim exercises them. -/
def v8_key_eq (a b : V8) : Bool :=
  match a, b with
  | .vnull, .vnull => true
  | .vbool x, .vbool y => x == y
  | .vint x, .vint y => x == y
  | .vdouble x, .vdouble y => x == y
  | .vstr x, .vstr y => x == y
  | _, _ => false

/-- Python obj[key] = val on the object dict: a list or dict key is
unhashable and raises TypeError; otherwise replace the field in place if
the key is present, else append. -/
def v8_obj_set (fields : List V8) (k v : V8) : Option (List V8) :=
  match k with
  | .vobj _ => none
  | .varr _ => none
  | _ =>
    if fields.any (fun f =>
        match f with | .vpair k' _ => v8_key_eq k' k | _ => false) then
      some (fields.map (fun f =>
        match f with
        | .vpair k' v' => if v8_key_eq k' k then .vpair k v else .vpair k' v'
        | other => other))
    else some (fields ++ [.vpair k v])

/-- bytes.decode(ascii, replace): bytes outside the ASCII range become the
replacement character U+FFFD. -/
def decode_ascii_replace (bs : Bytes) : List Nat :=
  bs.map (fun b => if b < 128 then b else 0xFFFD)

/-- bytes.decode(utf-16le): pair the bytes little-endian into code units;
an odd byte count raises.  Surrogate pairs are kept as code units (no claim
exercises astral characters). -/
def decode_utf16le : Bytes → Option (List Nat)
  | [] => some []
  | [_] => none
  | b0 :: b1 :: r =>
    match decode_utf16le r with
    | none => none
    | some u => some ((b0 + 256 * b1) :: u)

/-- indexeddb.py v8_deserizlize, object branch: repeatedly decode a key
value; an EndMarker closes the object after checking the declared count
against the number of fields; otherwise decode the value and assign the
pair into the dict.  deser is the value decoder at the enclosing fuel. -/
def v8_obj_loop (deser : Bytes → Option (V8 × Bytes)) :
    Nat → List V8 → Bytes → Option (V8 × Bytes)
  | 0, _, _ => none
  | g + 1, fields, s =>
    match deser s with
    | none => none
    | some (.endMarker c, s1) =>
      if fields.length = c then some (.vobj fields, s1) else none
    | some (k, s1) =>
      match deser s1 with
      | none => none
      | some (v, s2) =>
        match v8_obj_set fields k v with
        | none => none
        | some fields' => v8_obj_loop deser g fields' s2

/-- indexeddb.py v8_deserizlize, sparse-array branch body: repeatedly
decode a key; an EndMarker closes the array after checking the declared
count against the number of appended pairs and the trailing varint32
against the leading one; otherwise decode the value and append the
(key, value) tuple. -/
def v8_sparse_loop (deser : Bytes → Option (V8 × Bytes)) :
    Nat → List V8 → Nat → Bytes → Option (V8 × Bytes)
  | 0, _, _, _ => none
  | g + 1, arr, len1, s =>
    match deser s with
    | none => none
    | some (.endMarker c, s1) =>
      if arr.length = c then
        match read_varint32 s1 with
        | none => none
        | some (len2, s2) => if len1 = len2 then some (.varr arr, s2) else none
      else none
    | some (k, s1) =>
      match deser s1 with
      | none => none
      | some (v, s2) => v8_sparse_loop deser g (arr ++ [.vpair k v]) len1 s2

/-- indexeddb.py v8_deserizlize, dense-array element loop: decode exactly
the declared number of element values. -/
def v8_dense_elems (deser : Bytes → Option (V8 × Bytes)) :
    Nat → List V8 → Bytes → Option (List V8 × Bytes)
  | 0, arr, s => some (arr, s)
  | n + 1, arr, s =>
    match deser s with
    | none => none
    | some (v, s1) => v8_dense_elems deser n (arr ++ [v]) s1

/-- indexeddb.py v8_deserizlize, dense-array property loop: like the sparse
loop but appending after the elements and counting the appended pairs
separately for the EndMarker count check. -/
def v8_dense_props (deser : Bytes → Option (V8 × Bytes)) :
    Nat → List V8 → Nat → Nat → Bytes → Option (V8 × Bytes)
  | 0, _, _, _, _ => none
  | g + 1, arr, pc, len1, s =>
    match deser s with
    | none => none
    | some (.endMarker c, s1) =>
      if pc = c then
        match read_varint32 s1 with
        | none => none
        | some (len2, s2) => if len1 = len2 then some (.varr arr, s2) else none
      else none
    | some (k, s1) =>
      match deser s1 with
      | none => none
      | some (v, s2) =>
        v8_dense_props deser g (arr ++ [.vpair k v]) (pc + 1) len1 s2

/-- indexeddb.py IDBValue.v8_deserizlize: dispatch on the one-byte tag.  A
0x00 padding byte recurses; the loop fuels are the remaining stream length
plus one, which bounds their iteration counts because every iteration
consumes at least one byte; the recursion fuel bounds the nesting depth
(every nested call consumes at least one byte first, so the top-level fuel
passed by idb_value_decode always suffices). -/
def v8_deserialize : Nat → Bytes → Option (V8 × Bytes)
  | 0, _ => none
  | f + 1, s =>
    match readByte s with
    | none => none
    | some (t, s1) =>
      if t = 0x00 then v8_deserialize f s1
      else if t = 111 then
        v8_obj_loop (fun s' => v8_deserialize f s') (s1.length + 1) [] s1
      else if t = 123 ∨ t = 64 ∨ t = 36 then
        match read_varint64 s1 with
        | none => none
        | some (c, s2) => some (.endMarker c, s2)
      else if t = 34 then
        match read_varint32 s1 with
        | none => none
        | some (strLen, s2) =>
          match read_safe s2 strLen with
          | none => none
          | some (sv, s3) => some (.vstr (decode_ascii_replace sv), s3)
      else if t = 99 then
        match read_varint64 s1 with
        | none => none
        | some (strLen, s2) =>
          match read_safe s2 strLen with
          | none => none
          | some (sv, s3) =>
            match decode_utf16le sv with
            | none => none
            | some units => some (.vstr units, s3)
      else if t = 73 then
        match read_sint32 s1 with
        | none => none
        | some (n, s2) => some (.vint n, s2)
      else if t = 78 then
        match read_safe s1 8 with
        | none => none
        | some (buf, s2) => some (.vdouble (fromLE buf), s2)
      else if t = 97 then
        match read_varint32 s1 with
        | none => none
        | some (len1, s2) =>
          v8_sparse_loop (fun s' => v8_deserialize f s') (s2.length + 1) [] len1 s2
      else if t = 65 then
        match read_varint32 s1 with
        | none => none
        | some (len1, s2) =>
          match v8_dense_elems (fun s' => v8_deserialize f s') len1 [] s2 with
          | none => none
          | some (arr, s3) =>
            v8_dense_props (fun s' => v8_deserialize f s') (s3.length + 1) arr 0 len1 s3
      else if t = 95 ∨ t = 48 then some (.vnull, s1)
      else if t = 84 then some (.vbool true, s1)
      else if t = 70 then some (.vbool false, s1)
      else none

/-- indexeddb.py IDBValue.__init__: skip the leading varint64 database
version, require the two-byte wrap header (0xFF then a byte of at least
0x11), then dispatch on the next byte: 0x01 is an external blob reference
(the source stores the string <blob>), 0xFF is followed by the one-byte
serializer version and the value body, anything else fails; trailing bytes
after the body fail. -/
def idb_value_decode (value : Bytes) : Option V8 :=
  match read_varint64 value with
  | none => none
  | some (_, s) =>
    match s with
    | h0 :: h1 :: s2 =>
      if h0 = 0xFF ∧ 0x11 ≤ h1 then
        match readByte s2 with
        | none => none
        | some (tag, s3) =>
          if tag = 0x01 then some (.vstr [60, 98, 108, 111, 98, 62])
          else if tag = 0xFF then
            match readByte s3 with
            | none => none
            | some (_, s4) =>
              match v8_deserialize (s4.length + 1) s4 with
              | none => none
              | some (v, s5) => if s5 = [] then some v else none
          else none
      else none
    | _ => none

/-! Dictionary lemmas used by the snapshot-merge claims. -/

theorem mem_pop_imp {d : Dict} {j k : Bytes}
    (h : k ∈ dictKeys (dictPop d j)) : k ∈ dictKeys d ∧ k ≠ j := by
  simp only [dictKeys, dictPop, List.mem_map, List.mem_filter, bne_iff_ne,
    ne_eq] at h ⊢
  obtain ⟨p, ⟨hp, hne⟩, rfl⟩ := h
  exact ⟨⟨p, hp, rfl⟩, hne⟩

theorem not_mem_pop_self (d : Dict) (j : Bytes) : j ∉ dictKeys (dictPop d j) :=
  fun h => (mem_pop_imp h).2 rfl

theorem mem_set_imp {d : Dict} {j k v : Bytes}
    (h : k ∈ dictKeys (dictSet d j v)) : k ∈ dictKeys d ∨ k = j := by
  unfold dictSet at h
  split at h
  · simp only [dictKeys, List.map_map, List.mem_map, Function.comp] at h
    obtain ⟨p, hp, hfk⟩ := h
    by_cases hpj : (p.1 == j) = true
    · simp [hpj] at hfk
      exact Or.inr hfk.symm
    · simp [hpj] at hfk
      exact Or.inl (by simp only [dictKeys, List.mem_map]; exact ⟨p, hp, hfk⟩)
  · simp only [dictKeys, List.map_append, List.mem_append, List.map_cons,
      List.map_nil, List.mem_singleton] at h
    simpa only [dictKeys, List.mem_map] using h

theorem mem_update_imp {d2 : Dict} : ∀ {d : Dict} {k : Bytes},
    k ∈ dictKeys (dictUpdate d d2) → k ∈ dictKeys d ∨ k ∈ dictKeys d2 := by
  induction d2 with
  | nil => exact fun h => Or.inl (by simpa [dictUpdate] using h)
  | cons p rest ih =>
    intro d k h
    have h' := ih (d := dictSet d p.1 p.2) (by simpa [dictUpdate] using h)
    rcases h' with h' | h'
    · rcases mem_set_imp h' with h'' | h''
      · exact Or.inl h''
      · exact Or.inr (by simp [dictKeys, h''])
    · refine Or.inr ?_
      have : k ∈ List.map Prod.fst rest := h'
      simp only [dictKeys, List.map_cons, List.mem_cons]
      exact Or.inr this

theorem not_mem_foldUpdate {α : Type} (f : α → Dict) :
    ∀ (ts : List α) (init : Dict) (k : Bytes),
      (∀ t ∈ ts, k ∉ dictKeys (f t)) → k ∉ dictKeys init →
      k ∉ dictKeys (ts.foldl (fun acc t => dictUpdate acc (f t)) init) := by
  intro ts
  induction ts with
  | nil => exact fun init k _ h => h
  | cons t rest ih =>
    intro init k hts hinit
    refine ih (dictUpdate init (f t)) k (fun u hu => hts u (List.mem_cons_of_mem _ hu)) ?_
    intro hmem
    rcases mem_update_imp hmem with h | h
    · exact hinit h
    · exact hts t (List.mem_cons_self _ _) h

theorem lookup_mapset_self {d : Dict} {k v : Bytes}
    (hc : dictContains d k = true) :
    dictLookup (d.map (fun p => if p.1 == k then (k, v) else p)) k = some v := by
  induction d with
  | nil => simp [dictContains] at hc
  | cons p rest ih =>
    cases hpk : (p.1 == k) with
    | true => simp [dictLookup, hpk]
    | false =>
      have hc' : dictContains rest k = true := by
        simpa [dictContains, hpk] using hc
      simp only [List.map_cons, dictLookup, hpk, Bool.false_eq_true, if_false]
      exact ih hc'

theorem lookup_append_single_self {d : Dict} {k v : Bytes}
    (hc : dictContains d k = false) :
    dictLookup (d ++ [(k, v)]) k = some v := by
  induction d with
  | nil => simp [dictLookup]
  | cons p rest ih =>
    have h' : (p.1 == k) = false ∧ dictContains rest k = false := by
      simpa [dictContains] using hc
    simp [dictLookup, h'.1, ih h'.2]

theorem lookup_set_self (d : Dict) (k v : Bytes) :
    dictLookup (dictSet d k v) k = some v := by
  unfold dictSet
  split
  case isTrue hc => exact lookup_mapset_self hc
  case isFalse hc => exact lookup_append_single_self (by simpa using hc)

theorem lookup_mapset_ne {d : Dict} {j k v : Bytes} (hne : k ≠ j) :
    dictLookup (d.map (fun p => if p.1 == j then (j, v) else p)) k
      = dictLookup d k := by
  induction d with
  | nil => rfl
  | cons p rest ih =>
    simp only [List.map_cons]
    cases hpj : (p.1 == j) with
    | true =>
      have hp : p.1 = j := by simpa using hpj
      have h1 : (j == k) = false := beq_eq_false_iff_ne.mpr (Ne.symm hne)
      have h2 : (p.1 == k) = false := by rw [hp]; exact h1
      simp only [hpj, if_true, dictLookup, h1, h2, Bool.false_eq_true, if_false]
      exact ih
    | false =>
      simp only [hpj, Bool.false_eq_true, if_false, dictLookup]
      cases hpk : (p.1 == k) with
      | true => simp only [hpk, if_true]
      | false =>
        simp only [hpk, Bool.false_eq_true, if_false]
        exact ih

theorem lookup_append_single_ne {d : Dict} {j k v : Bytes} (hne : k ≠ j) :
    dictLookup (d ++ [(j, v)]) k = dictLookup d k := by
  induction d with
  | nil =>
    have h1 : (j == k) = false := beq_eq_false_iff_ne.mpr (Ne.symm hne)
    simp [dictLookup, h1]
  | cons p rest ih =>
    simp only [List.cons_append, dictLookup]
    cases hpk : (p.1 == k) with
    | true => simp only [hpk, if_true]
    | false =>
      simp only [hpk, Bool.false_eq_true, if_false]
      exact ih

theorem lookup_set_ne {d : Dict} {j k v : Bytes} (hne : k ≠ j) :
    dictLookup (dictSet d j v) k = dictLookup d k := by
  unfold dictSet
  split
  · exact lookup_mapset_ne hne
  · exact lookup_append_single_ne hne

theorem lookup_update_not_mem {d2 : Dict} : ∀ {d : Dict} {k : Bytes},
    k ∉ dictKeys d2 → dictLookup (dictUpdate d d2) k = dictLookup d k := by
  induction d2 with
  | nil => exact fun _ => rfl
  | cons p rest ih =>
    intro d k hk
    have h1 : ¬(k = p.1 ∨ k ∈ dictKeys rest) := by
      simpa only [dictKeys, List.map_cons, List.mem_cons] using hk
    push_neg at h1
    calc dictLookup (dictUpdate (dictSet d p.1 p.2) rest) k
        = dictLookup (dictSet d p.1 p.2) k := ih h1.2
      _ = dictLookup d k := lookup_set_ne h1.1

theorem lookup_update_mem {d2 : Dict} : ∀ {d : Dict} {k v : Bytes},
    (dictKeys d2).Nodup → dictLookup d2 k = some v →
    dictLookup (dictUpdate d d2) k = some v := by
  induction d2 with
  | nil => intro d k v _ h; simp [dictLookup] at h
  | cons p rest ih =>
    intro d k v hnd hl
    have hnd' : p.1 ∉ dictKeys rest ∧ (dictKeys rest).Nodup := by
      simpa only [dictKeys, List.map_cons, List.nodup_cons] using hnd
    cases hpk : (p.1 == k) with
    | true =>
      have hp : p.1 = k := by simpa using hpk
      have hv : p.2 = v := by simpa [dictLookup, hpk] using hl
      have hrest : k ∉ dictKeys rest := hp ▸ hnd'.1
      calc dictLookup (dictUpdate (dictSet d p.1 p.2) rest) k
          = dictLookup (dictSet d p.1 p.2) k := lookup_update_not_mem hrest
        _ = some v := by rw [hp, hv]; exact lookup_set_self d k v
    | false =>
      have hl' : dictLookup rest k = some v := by
        simpa [dictLookup, hpk] using hl
      exact ih hnd'.2 hl'

theorem lookup_pop_ne {j k : Bytes} (hne : k ≠ j) : ∀ {d : Dict},
    dictLookup (dictPop d j) k = dictLookup d k := by
  intro d
  induction d with
  | nil => rfl
  | cons p rest ih =>
    by_cases hpj : p.1 = j
    · have h1 : (p.1 != j) = false := by simp [hpj]
      have h2 : (p.1 == k) = false := by
        rw [hpj]; exact beq_eq_false_iff_ne.mpr (Ne.symm hne)
      simp only [dictPop, List.filter_cons, h1, Bool.false_eq_true, if_false,
        dictLookup, h2]
      exact ih
    · have h1 : (p.1 != j) = true := by simp [hpj]
      simp only [dictPop, List.filter_cons, h1, if_true, dictLookup]
      cases hpk : (p.1 == k) with
      | true => simp only [hpk, if_true]
      | false =>
        simp only [hpk, Bool.false_eq_true, if_false]
        exact ih

theorem lookup_purgeFold {dl : Dict} : ∀ {e : Dict} {k : Bytes},
    k ∉ dictKeys dl → dictLookup (purgeFold e dl) k = dictLookup e k := by
  induction dl with
  | nil => exact fun _ => rfl
  | cons p rest ih =>
    intro e k hk
    have h1 : ¬(k = p.1 ∨ k ∈ dictKeys rest) := by
      simpa only [dictKeys, List.map_cons, List.mem_cons] using hk
    push_neg at h1
    calc dictLookup (purgeFold (dictPop e p.1) rest) k
        = dictLookup (dictPop e p.1) k := ih h1.2
      _ = dictLookup e k := lookup_pop_ne h1.1

theorem not_mem_purge_mono {dl : Dict} : ∀ {e : Dict} {k : Bytes},
    k ∉ dictKeys e → k ∉ dictKeys (purgeFold e dl) := by
  induction dl with
  | nil => exact fun h => h
  | cons p rest ih =>
    intro e k hk
    exact ih (fun hmem => hk (mem_pop_imp hmem).1)

theorem not_mem_purge_of_mem {dl : Dict} : ∀ {e : Dict} {k : Bytes},
    k ∈ dictKeys dl → k ∉ dictKeys (purgeFold e dl) := by
  induction dl with
  | nil => intro e k h; simp [dictKeys] at h
  | cons p rest ih =>
    intro e k hk
    have hk' : k = p.1 ∨ k ∈ List.map Prod.fst rest := by
      simpa only [dictKeys, List.map_cons, List.mem_cons] using hk
    show k ∉ dictKeys (purgeFold (dictPop e p.1) rest)
    rcases hk' with h | h
    · refine not_mem_purge_mono ?_
      rw [h]
      exact not_mem_pop_self e p.1
    · exact ih h

theorem moveFold_fst_lookup {dks : List Bytes} : ∀ {st : Dict × Dict} {k : Bytes},
    k ∉ dks → dictLookup (moveFold st dks).1 k = dictLookup st.1 k := by
  induction dks with
  | nil => exact fun _ => rfl
  | cons k' rest ih =>
    intro st k hk
    have h1 : ¬(k = k' ∨ k ∈ rest) := by simpa using hk
    push_neg at h1
    calc dictLookup (moveFold (moveStep st k') rest).1 k
        = dictLookup (moveStep st k').1 k := ih h1.2
      _ = dictLookup st.1 k := by
          unfold moveStep
          cases hlk : dictLookup st.1 k' <;> simp [hlk, lookup_pop_ne h1.1]

theorem moveFold_disjoint {dks : List Bytes} :
    ∀ {st : Dict × Dict}, (∀ j, j ∈ dictKeys st.2 → j ∉ dictKeys st.1) →
    ∀ j, j ∈ dictKeys (moveFold st dks).2 → j ∉ dictKeys (moveFold st dks).1 := by
  induction dks with
  | nil => exact fun h => h
  | cons k' rest ih =>
    intro st h
    refine ih ?_
    intro j hj
    unfold moveStep at hj ⊢
    cases hlk : dictLookup st.1 k' with
    | none =>
      rw [hlk] at hj
      dsimp only at hj ⊢
      exact h j hj
    | some v =>
      rw [hlk] at hj
      dsimp only at hj ⊢
      by_cases hv : v = []
      · simp only [hv, ne_eq, not_true_eq_false, if_false] at hj ⊢
        exact fun hmem => h j hj (mem_pop_imp hmem).1
      · simp only [ne_eq, hv, not_false_eq_true, if_true] at hj ⊢
        rcases mem_set_imp hj with h' | h'
        · exact fun hmem => h j h' (mem_pop_imp hmem).1
        · intro hmem
          rw [h'] at hmem
          exact not_mem_pop_self st.1 k' hmem

/-! Concrete snapshot-merge inputs used by the merge claims. -/

/-- A table whose only live entry is key 07 with the empty value. -/
def emptyValTable : TableData := ⟨[([7], [])], [], []⟩

/-- A log whose only content is a tombstone for key 07. -/
def tombOnlyLog : LogData := ⟨[], [[7]]⟩

/-- A table with live entry 03 -> 01. -/
def overlayTable : TableData := ⟨[([3], [1])], [], []⟩

/-- A log overwriting key 03 with value 09. -/
def overlayLog : LogData := ⟨[([3], [9])], []⟩

/-- A table with live entry 05 -> 01 and a tombstone for 05. -/
def tombAndValueTable : TableData := ⟨[([5], [1])], [], [([5], [])]⟩

/-- A log overwriting key 05 with value 02 (and no tombstones). -/
def overlayLog5 : LogData := ⟨[([5], [2])], []⟩

/-- After the merge, every key of the final deleted_entries map is absent
from the final entries map: the purge pops every deleted_entries key out
of entries, and the move loop only transfers keys it has just popped. -/
theorem snapshot_entries_deleted_disjoint (tables : List TableData)
    (log : Option LogData) (k : Bytes)
    (h : k ∈ dictKeys (dbMerge tables log).deleted_entries) :
    k ∉ dictKeys (dbMerge tables log).entries := by
  simp only [dbMerge] at h ⊢
  exact moveFold_disjoint (fun j hj => not_mem_purge_of_mem hj) k h

/-- An is_meta = False block never writes the meta_entries map: whatever
entries the loop decodes, the middle component of its result is the
middle component it started from. -/
theorem blockEntriesLoop_false_meta (ro dl : Nat) : ∀ (fuel : Nat)
    (es ms ds : Dict) (pk : Option Bytes) (s : Bytes)
    (r : Dict × Dict × Dict),
    blockEntriesLoop false ro dl fuel es ms ds pk s = some r →
    r.2.1 = ms := by
  intro fuel
  induction fuel with
  | zero =>
    intro es ms ds pk s r h
    exact absurd h (by simp [blockEntriesLoop])
  | succ f ih =>
    intro es ms ds pk s r h
    unfold blockEntriesLoop at h
    split at h
    case isFalse =>
      injection h with h'
      rw [← h']
    case isTrue =>
      cases hv1 : read_varint32 s with
      | none => rw [hv1] at h; exact absurd h (by simp)
      | some p1 =>
        obtain ⟨shared, s1⟩ := p1
        rw [hv1] at h
        dsimp only at h
        cases hv2 : read_varint32 s1 with
        | none => rw [hv2] at h; exact absurd h (by simp)
        | some p2 =>
          obtain ⟨nonShared, s2⟩ := p2
          rw [hv2] at h
          dsimp only at h
          cases hv3 : read_varint32 s2 with
          | none => rw [hv3] at h; exact absurd h (by simp)
          | some p3 =>
            obtain ⟨valLen, s3⟩ := p3
            rw [hv3] at h
            dsimp only at h
            cases hsd : (if 0 < shared then pk.map (fun q => q.take shared)
                else some ([] : Bytes)) with
            | none => rw [hsd] at h; exact absurd h (by simp)
            | some sharedData =>
              rw [hsd] at h
              dsimp only at h
              split at h
              case isTrue =>
                simp only [Bool.false_eq_true, if_false] at h
                split at h
                case isTrue => exact ih _ _ _ _ _ _ h
                case isFalse =>
                  split at h
                  case isTrue => exact ih _ _ _ _ _ _ h
                  case isFalse => exact absurd h (by simp)
              case isFalse => exact absurd h (by simp)

/-- Every successfully decoded is_meta = False block has an empty
meta_entries map. -/
theorem block_entries_false_meta {data : Bytes} {r : Dict × Dict × Dict}
    (h : block_entries data false = some r) : r.2.1 = [] := by
  unfold block_entries at h
  split at h
  case isTrue => exact absurd h (by simp)
  case isFalse =>
    dsimp only at h
    split at h
    case isTrue => exact blockEntriesLoop_false_meta _ _ _ _ _ _ _ _ _ h
    case isFalse => exact absurd h (by simp)

/-- Merging data blocks with empty meta maps onto a table with an empty
meta map leaves the meta map empty. -/
theorem tableFold_meta_empty : ∀ (bs : List (Dict × Dict × Dict))
    (t0 : TableData), (∀ b ∈ bs, b.2.1 = []) → t0.meta_entries = [] →
    (bs.foldl
      (fun t b =>
        (⟨dictUpdate t.entries b.1, dictUpdate t.meta_entries b.2.1,
          dictUpdate t.deleted_entries b.2.2⟩ : TableData))
      t0).meta_entries = [] := by
  intro bs
  induction bs with
  | nil => intro t0 _ h0; exact h0
  | cons b rest ih =>
    intro t0 hbs h0
    refine ih _ (fun b' hb' => hbs b' (List.mem_cons_of_mem _ hb')) ?_
    show dictUpdate t0.meta_entries b.2.1 = []
    rw [hbs b (List.mem_cons_self _ _), h0]
    rfl

/-- Every table the database decode produces has an empty meta_entries
map: Table.__init__ merges only the is_meta = False data blocks, and the
parsed meta-index block is discarded. -/
theorem decodedTable_meta {t : TableData} (h : IsDecodedTable t) :
    t.meta_entries = [] := by
  obtain ⟨bs, hbs, rfl⟩ := h
  refine tableFold_meta_empty bs ⟨[], [], []⟩ ?_ rfl
  intro b hb
  obtain ⟨data, hdata⟩ := hbs b hb
  exact block_entries_false_meta hdata

/-- Folding dict.update over empty meta maps returns the accumulator. -/
theorem foldUpdate_meta_empty : ∀ (ts : List TableData) (init : Dict),
    (∀ t ∈ ts, t.meta_entries = []) →
    ts.foldl (fun acc t => dictUpdate acc t.meta_entries) init = init := by
  intro ts
  induction ts with
  | nil => intro init _; rfl
  | cons t rest ih =>
    intro init h
    show rest.foldl (fun acc u => dictUpdate acc u.meta_entries)
      (dictUpdate init t.meta_entries) = init
    rw [h t (List.mem_cons_self _ _)]
    exact ih init (fun u hu => h u (List.mem_cons_of_mem _ hu))

/-- C1 (confirmed): after a full database decode the key sets of the
three snapshot maps are pairwise disjoint - every user-key appears in at
most one of entries, deleted_entries and meta_entries.  Table files
contribute only is_meta = False data blocks (IsDecodedTable), so the
merged meta_entries map is empty and both meta intersections are empty;
entries and deleted_entries are separated by the purge and the
pop-before-insert move loop. -/
theorem snapshot_partition (tables : List TableData) (log : Option LogData)
    (htab : ∀ t ∈ tables, IsDecodedTable t) (k : Bytes) :
    ¬(k ∈ dictKeys (dbMerge tables log).entries ∧
        k ∈ dictKeys (dbMerge tables log).deleted_entries) ∧
    ¬(k ∈ dictKeys (dbMerge tables log).meta_entries ∧
        k ∈ dictKeys (dbMerge tables log).entries) ∧
    ¬(k ∈ dictKeys (dbMerge tables log).deleted_entries ∧
        k ∈ dictKeys (dbMerge tables log).meta_entries) := by
  have hmeta : (dbMerge tables log).meta_entries = [] := by
    simp only [dbMerge]
    exact foldUpdate_meta_empty tables []
      (fun t ht => decodedTable_meta (htab t ht))
  refine ⟨?_, ?_, ?_⟩
  · rintro ⟨he, hd⟩
    exact snapshot_entries_deleted_disjoint tables log k hd he
  · rintro ⟨hm, -⟩
    rw [hmeta] at hm
    simp [dictKeys] at hm
  · rintro ⟨-, hm⟩
    rw [hmeta] at hm
    simp [dictKeys] at hm

/-- A concrete decompressed block payload: one entry (shared 0,
non_shared 9, value length 1), key 6B with an 8-byte trailer of kind
VALUE and sequence 0, value 61, one restart point at 0, restart count
1. -/
def sampleBlockData : Bytes :=
  [0, 9, 1] ++ [107, 1, 0, 0, 0, 0, 0, 0, 0] ++ [97] ++ [0, 0, 0, 0]
    ++ [1, 0, 0, 0]

/-- The decoded maps of sampleBlockData as an is_meta = False block. -/
def sampleBlockResult : Dict × Dict × Dict := ([([107], [97])], [], [])

/-- The table accumulated from that single data block. -/
def sampleTable : TableData := tableFromDataBlocks [sampleBlockResult]

/-- Witness for the C1 theorem: the merge of one concretely decoded table
file, with the partition checked at key 6B. -/
theorem snapshot_partition_witness :
    ¬([107] ∈ dictKeys (dbMerge [sampleTable] none).entries ∧
        [107] ∈ dictKeys (dbMerge [sampleTable] none).deleted_entries) ∧
    ¬([107] ∈ dictKeys (dbMerge [sampleTable] none).meta_entries ∧
        [107] ∈ dictKeys (dbMerge [sampleTable] none).entries) ∧
    ¬([107] ∈ dictKeys (dbMerge [sampleTable] none).deleted_entries ∧
        [107] ∈ dictKeys (dbMerge [sampleTable] none).meta_entries) :=
  snapshot_partition [sampleTable] none
    (fun t ht => by
      rw [List.mem_singleton] at ht
      subst ht
      exact ⟨[sampleBlockResult],
        fun b hb => by
          rw [List.mem_singleton] at hb
          subst hb
          exact ⟨sampleBlockData, rfl⟩,
        rfl⟩)
    [107]

/-- C2 (code bug): a log tombstone for a key with no recoverable nonempty
value is dropped entirely.  With no prior live value the key is not
recorded in deleted_entries at all (first conjunct); with a prior live but
empty value the key is popped from entries and still not recorded
(second and third conjuncts) - the source's truthiness test discards the
empty byte string, contradicting both the claim and the DB docstring
(deleted entries with values, if exist, otherwise None). -/
theorem log_tombstone_dropped :
    (dbMerge [] (some tombOnlyLog)).deleted_entries = [] ∧
    (dbMerge [emptyValTable] (some tombOnlyLog)).deleted_entries = [] ∧
    (dbMerge [emptyValTable] (some tombOnlyLog)).entries = [] :=
  ⟨rfl, rfl, rfl⟩

/-- C3 (corrected, counterexample): key 05 lives in a table file's data
blocks (value 01) and in the log (last value 02), yet the merged snapshot's
entries map does not assign 05 the log's value - the same table also
carries a tombstone for 05, and the purge of deleted_entries keys runs
after the log overlay, so 05 disappears from entries entirely. -/
theorem log_overlay_cex :
    dictLookup tombAndValueTable.entries [5] = some [1] ∧
    dictLookup overlayLog5.entries [5] = some [2] ∧
    dictLookup (dbMerge [tombAndValueTable] (some overlayLog5)).entries [5]
      = none :=
  ⟨rfl, rfl, rfl⟩

/-- C3 (amended): for a key k present in a live table file and written in
the log, the snapshot's entries map holds the log's last value for k,
provided no table file carries a tombstone for k and k is not in the log's
tombstone set. -/
theorem log_overlay_precedence (tables : List TableData) (l : LogData)
    (k v : Bytes)
    (hk : ∃ t ∈ tables, k ∈ dictKeys t.entries)
    (hnd : (dictKeys l.entries).Nodup)
    (hlv : dictLookup l.entries k = some v)
    (hdel : ∀ t ∈ tables, k ∉ dictKeys t.deleted_entries)
    (htomb : k ∉ l.deleted_keys) :
    dictLookup (dbMerge tables (some l)).entries k = some v := by
  simp only [dbMerge]
  have hd0 : k ∉ dictKeys
      (tables.foldl (fun acc t => dictUpdate acc t.deleted_entries) []) := by
    refine not_mem_foldUpdate TableData.deleted_entries tables [] k hdel ?_
    simp [dictKeys]
  rw [moveFold_fst_lookup htomb, lookup_purgeFold hd0]
  exact lookup_update_mem hnd hlv

/-- Witness for the amended C3 theorem at a concrete input. -/
theorem log_overlay_precedence_witness :
    dictLookup (dbMerge [overlayTable] (some overlayLog)).entries [3]
      = some [9] :=
  log_overlay_precedence [overlayTable] overlayLog [3] [9]
    (by decide) (by decide) (by decide) (by decide) (by decide)

/-- C4 (corrected, counterexample): a record-log record whose stored CRC
equals the type-first computation verifies successfully, yet that value
differs from the payload-then-type CRC - so verification is not
characterised by the payload-then-type order the claim states. -/
theorem crc_order_cex :
    log_record_crc_ok (mask_leveldb_crc32c (crc_update (crc [1]) [97])) 1 [97]
      = true ∧
    crc_update (crc [1]) [97] ≠ crc_update (crc [97]) [1] := by
  constructor
  · rfl
  · decide

/-- Inversion for read_safe: a successful exact read returns the take/drop
split of a sufficiently long stream. -/
theorem read_safe_eq {s : Bytes} {n : Nat} {a b : Bytes}
    (h : read_safe s n = some (a, b)) :
    a = s.take n ∧ b = s.drop n ∧ n ≤ s.length := by
  unfold read_safe at h
  split at h
  case isTrue hle =>
    injection h with hpair
    rw [Prod.mk.injEq] at hpair
    exact ⟨hpair.1.symm, hpair.2.symm, hle⟩
  case isFalse => exact absurd h (by simp)

/-- C4 (amended): table-block verification hashes the payload and then
folds in the type byte, while record-log verification hashes the type byte
first and then folds in the payload; each check succeeds exactly when the
stored unmasked CRC equals the CRC computed in its respective order, and
every record get_record accepts satisfies the type-first equation against
its stored CRC field. -/
theorem crc_check_orders :
    (∀ (block data : Bytes) (t : Nat) (rest : Bytes),
        get_record block = some ((data, t), rest) →
        unmask_leveldb_crc32c (fromLE (block.take 4)) = crc_update (crc [t]) data)
    ∧ (∀ (m t : Nat) (data : Bytes),
        table_block_crc_ok m t data = true ↔
        unmask_leveldb_crc32c m = crc_update (crc data) [t]) := by
  constructor
  · intro block data t rest h
    unfold get_record at h
    cases h4 : read_safe block 4 with
    | none => rw [h4] at h; exact absurd h (by simp)
    | some p4 =>
      obtain ⟨crcBytes, s1⟩ := p4
      obtain ⟨hcb, -, -⟩ := read_safe_eq h4
      rw [h4] at h
      dsimp only at h
      cases h2 : read_safe s1 2 with
      | none => rw [h2] at h; exact absurd h (by simp)
      | some p2 =>
        obtain ⟨lenBytes, s2⟩ := p2
        rw [h2] at h
        dsimp only at h
        cases h1 : readByte s2 with
        | none => rw [h1] at h; exact absurd h (by simp)
        | some p1 =>
          obtain ⟨t', s3⟩ := p1
          rw [h1] at h
          dsimp only at h
          cases hd : read_safe s3 (fromLE lenBytes) with
          | none => rw [hd] at h; exact absurd h (by simp)
          | some pd =>
            obtain ⟨data', s4⟩ := pd
            rw [hd] at h
            dsimp only at h
            split at h
            case isTrue hok =>
              injection h with hpair
              rw [Prod.mk.injEq, Prod.mk.injEq] at hpair
              obtain ⟨⟨hda, hta⟩, -⟩ := hpair
              subst hda; subst hta
              rw [← hcb]
              unfold log_record_crc_ok at hok
              exact beq_iff_eq.mp hok
            case isFalse => exact absurd h (by simp)
  · intro m t data
    unfold table_block_crc_ok
    exact beq_iff_eq

/-- A physical record-log record over `data` with record type `t` and a
correctly computed stored CRC (type byte first, then payload, masked). -/
def mkPhysRecord (t : Nat) (data : Bytes) : Bytes :=
  toLE 4 (mask_leveldb_crc32c (crc_update (crc [t]) data))
    ++ toLE 2 data.length ++ [t] ++ data

/-- Witness for the amended C4 theorem at a concrete record. -/
theorem crc_check_orders_witness :
    unmask_leveldb_crc32c (fromLE ((mkPhysRecord 1 [97]).take 4))
      = crc_update (crc [1]) [97] :=
  crc_check_orders.1 (mkPhysRecord 1 [97]) [97] 1 [] rfl

/-! C7: the declared-count invariant of the write-ahead-log decoder. -/

/-- A logical record with sequence 0, declared count 1 and a single VALUE
operation key 6B -> value `v`. -/
def oneOpRecord (v : Nat) : Bytes :=
  List.replicate 8 0 ++ [1, 0, 0, 0] ++ [1, 1, 107, 1, v]

/-- A log file holding two FULL records that both write key 6B (values 61
and 62): each record passes its per-record count check, but the file-level
live map collapses the two writes into one entry. -/
def twoRecordLogFile : Bytes :=
  mkPhysRecord 1 (oneOpRecord 97) ++ mkPhysRecord 1 (oneOpRecord 98)

set_option maxRecDepth 8000

/-- C7 (corrected, counterexample): this log file decodes successfully to
one live entry and no tombstones (1 key total), while the declared counts
of its records sum to 2 - the claimed file-level equality fails when the
same key is written by two records. -/
theorem log_count_invariant_cex :
    get_log_entries twoRecordLogFile = some ([([107], [98])], []) ∧
    sumDeclaredCounts twoRecordLogFile = some 2 ∧
    ([([107], [98])] : Dict).length + ([] : List Bytes).length ≠ 2 := by
  refine ⟨rfl, rfl, ?_⟩
  decide

/-- C7 (amended): the count invariant holds per record - whenever a single
logical record decodes successfully, the number of live entries plus
deleted keys it produces equals that record's declared operation count
(the file-level sum equality holds only when no key repeats across
records). -/
theorem record_count_invariant (record : Bytes) (es : Dict)
    (ds : List Bytes) (h : get_record_entries record = some (es, ds)) :
    es.length + ds.length = declaredCount record := by
  unfold get_record_entries at h
  cases h8 : read_safe record 8 with
  | none => rw [h8] at h; exact absurd h (by simp)
  | some p8 =>
    obtain ⟨seqBytes, s1⟩ := p8
    obtain ⟨-, hs1, -⟩ := read_safe_eq h8
    rw [h8] at h
    dsimp only at h
    cases h4 : read_safe s1 4 with
    | none => rw [h4] at h; exact absurd h (by simp)
    | some p4 =>
      obtain ⟨countBytes, s2⟩ := p4
      obtain ⟨hcb, -, -⟩ := read_safe_eq h4
      rw [h4] at h
      dsimp only at h
      cases hops : opsLoop (s2.length + 1) [] [] s2 with
      | none => rw [hops] at h; exact absurd h (by simp)
      | some pes =>
        obtain ⟨es', ds'⟩ := pes
        rw [hops] at h
        dsimp only at h
        split at h
        case isTrue hcount =>
          injection h with hpair
          rw [Prod.mk.injEq] at hpair
          obtain ⟨hes, hds⟩ := hpair
          subst hes; subst hds
          unfold declaredCount
          rw [← hs1, ← hcb]
          exact hcount
        case isFalse => exact absurd h (by simp)

/-- Witness for the amended C7 theorem at a concrete record. -/
theorem record_count_invariant_witness :
    ([([107], [97])] : Dict).length + ([] : List Bytes).length
      = declaredCount (oneOpRecord 97) :=
  record_count_invariant (oneOpRecord 97) [([107], [97])] [] rfl

/-! C8: termination behaviour of read_varint. -/

theorem read_varint_go_stops {pre : Bytes} : ∀ {b : Nat} {rest : Bytes}
    {r i acc : Nat}, (∀ x ∈ pre, x &&& 128 ≠ 0) → b &&& 128 = 0 →
    pre.length < r →
    read_varint_go r i acc (pre ++ b :: rest)
      = some (acc + varintVal (pre ++ [b]) * 2 ^ (7 * i), rest) := by
  induction pre with
  | nil =>
    intro b rest r i acc _ hb hr
    cases r with
    | zero => omega
    | succ r' =>
      simp only [List.nil_append, read_varint_go, hb, if_true, varintVal]
      simp [hb]
  | cons p pre' ih =>
    intro b rest r i acc hpre hb hr
    have hp : p &&& 128 ≠ 0 := hpre p (List.mem_cons_self _ _)
    cases r with
    | zero => omega
    | succ r' =>
      simp only [List.cons_append, read_varint_go, hp, if_false, if_neg hp]
      rw [ih (fun x hx => hpre x (List.mem_cons_of_mem _ hx)) hb
        (by simpa using Nat.lt_of_succ_lt_succ hr)]
      simp only [List.cons_append, varintVal, if_neg hp]
      congr 1
      have h7 : 7 * (i + 1) = 7 * i + 7 := by ring
      rw [h7, pow_add]
      ring_nf

theorem read_varint_go_exhausts : ∀ (r : Nat) {s : Bytes} {i acc : Nat},
    (∀ x ∈ s.take r, x &&& 128 ≠ 0) → r ≤ s.length →
    read_varint_go r i acc s
      = some (acc + varintVal (s.take r) * 2 ^ (7 * i), s.drop r) := by
  intro r
  induction r with
  | zero => intro s i acc _ _; simp [read_varint_go, varintVal]
  | succ r' ih =>
    intro s i acc hhigh hlen
    cases s with
    | nil => simp at hlen
    | cons b rest =>
      have hb : b &&& 128 ≠ 0 :=
        hhigh b (by simp [List.take_succ_cons])
      simp only [read_varint_go, if_neg hb]
      rw [ih (fun x hx => hhigh x (by simp [List.take_succ_cons, hx]))
        (by simpa using hlen)]
      simp only [List.take_succ_cons, List.drop_succ_cons, varintVal, if_neg hb]
      congr 1
      have h7 : 7 * (i + 1) = 7 * i + 7 := by ring
      rw [h7, pow_add]
      ring_nf

/-- C8 (amended): read_varint accumulates little-endian 7-bit groups.  It
stops at the first byte with the top bit clear inside the allowance and
returns the accumulated value with the rest of the stream (first
conjunct); when max_bytes bytes are consumed without a terminating byte it
also returns the value accumulated so far - no error is raised (second
conjunct). -/
theorem read_varint_termination :
    (∀ (pre : Bytes) (b : Nat) (rest : Bytes) (maxBytes : Nat),
        (∀ x ∈ pre, x &&& 128 ≠ 0) → b &&& 128 = 0 → pre.length < maxBytes →
        read_varint (pre ++ b :: rest) maxBytes
          = some (varintVal (pre ++ [b]), rest))
    ∧ (∀ (s : Bytes) (maxBytes : Nat),
        (∀ x ∈ s.take maxBytes, x &&& 128 ≠ 0) → maxBytes ≤ s.length →
        read_varint s maxBytes
          = some (varintVal (s.take maxBytes), s.drop maxBytes)) := by
  constructor
  · intro pre b rest maxBytes hpre hb hr
    unfold read_varint
    rw [read_varint_go_stops hpre hb hr]
    simp
  · intro s maxBytes hhigh hlen
    unfold read_varint
    rw [read_varint_go_exhausts maxBytes hhigh hlen]
    simp

/-- C8 (corrected, counterexample): two continuation bytes with max_bytes
= 2 make read_varint return the accumulated value 257 - it does not fail
as the claim states. -/
theorem read_varint_no_failure_cex :
    read_varint [129, 130] 2 = some (257, []) := rfl

/-- Witness for the amended C8 theorem at a concrete input. -/
theorem read_varint_termination_witness :
    read_varint [129, 1, 5] 2 = some (129, [5]) :=
  read_varint_termination.1 [129] 1 [5] 2 (by decide) (by decide) (by decide)

/-- C9 (code bug): int64_to_bytes_compact at n = 2^56 evaluates to the
empty byte string (Python buf[:-0] is buf[:0]), whose length is 0 rather
than the claimed 8, so padding it to 8 bytes reconstructs 0, not n. -/
theorem compact_int_empty_at_2_56 :
    int64_to_bytes_compact (2 ^ 56) = some [] ∧
    fromLE (List.replicate 8 0) = 0 := ⟨rfl, rfl⟩

/-- C10 (confirmed): whatever the input stream, a value returned by
read_sint32 lies in the signed 32-bit range, because the decoded varint is
masked to 32 bits before the zigzag transform. -/
theorem read_sint32_in_int32_range (s : Bytes) (v : Int) (rest : Bytes)
    (h : read_sint32 s = some (v, rest)) :
    -(2 : Int) ^ 31 ≤ v ∧ v < 2 ^ 31 := by
  unfold read_sint32 at h
  cases hv : read_varint32 s with
  | none => rw [hv] at h; exact absurd h (by simp)
  | some p =>
    obtain ⟨n, rest'⟩ := p
    rw [hv] at h
    dsimp only at h
    have hveq : (if n &&& 1 = 1 then
        -(((n &&& 0xFFFFFFFF) >>> 1 : Nat) : Int) - 1
        else (((n &&& 0xFFFFFFFF) >>> 1 : Nat) : Int)) = v :=
      congrArg Prod.fst (Option.some.inj h)
    have hx : (n &&& 0xFFFFFFFF) >>> 1 < 2 ^ 31 := by
      have hle : n &&& 0xFFFFFFFF ≤ 0xFFFFFFFF := Nat.and_le_right
      have : (n &&& 0xFFFFFFFF) >>> 1 = (n &&& 0xFFFFFFFF) / 2 := by
        simp [Nat.shiftRight_eq_div_pow]
      omega
    split at hveq <;> omega

/-- Witness for the C10 theorem at a concrete input. -/
theorem read_sint32_in_int32_range_witness :
    -(2 : Int) ^ 31 ≤ (2 : Int) ∧ (2 : Int) < 2 ^ 31 :=
  read_sint32_in_int32_range [4] 2 [] rfl

/-! C5: decoding the two spec payloads through the V8 value decoder. -/

/-- C5 (corrected, counterexample): both spec payloads are rejected by the
decoder.  After the leading varint FF 0F, the two wrap-header bytes are
FF 0D, and 0D is below the required 11, so IDBValue construction fails on
both byte strings instead of producing the claimed object and array. -/
theorem v8_payloads_rejected :
    idb_value_decode
        [0xFF, 0x0F, 0xFF, 0x0D, 0x6F, 0x22, 0x01, 0x61, 0x49, 0x04, 0x7B, 0x01]
      = none ∧
    idb_value_decode
        [0xFF, 0x0F, 0xFF, 0x0D, 0x41, 0x02, 0x49, 0x02, 0x49, 0x04, 0x24,
          0x00, 0x02]
      = none := ⟨rfl, rfl⟩

/-- C5 (amended): with a valid wrap header inserted after the leading
varint (FF 11, so the version byte is at least 11, followed by the FF
serializer tag and a version byte), the object body 6F 22 01 61 49 04 7B 01
decodes to the object mapping string a to integer 2 (49 04 zigzag-decodes
to 2), and the dense-array body 41 02 49 02 49 04 24 00 02 decodes to the
array of integers 1, 2. -/
theorem v8_payloads_decode :
    idb_value_decode
        [0xFF, 0x0F, 0xFF, 0x11, 0xFF, 0x0D, 0x6F, 0x22, 0x01, 0x61, 0x49,
          0x04, 0x7B, 0x01]
      = some (.vobj [.vpair (.vstr [97]) (.vint 2)]) ∧
    idb_value_decode
        [0xFF, 0x0F, 0xFF, 0x11, 0xFF, 0x0D, 0x41, 0x02, 0x49, 0x02, 0x49,
          0x04, 0x24, 0x00, 0x02]
      = some (.varr [.vint 1, .vint 2]) := ⟨rfl, rfl⟩

/-- C6 (code bug): the key-prefix decoder does not invert the encoder.
Encoding (db = 256, store = 2, idx = 1) produces first byte 20 (db length
field 2) with tail 00 01 02 01, but the source's precedence-afflicted
extraction reads every length field from the low bits of the first byte,
decodes one byte per id and returns (0, 1, 2) with a leftover byte, while
the spec's masked-then-shifted decoding (section 4.8, declared
authoritative) recovers (256, 2, 1) exactly.  The (1, 2, 1) instance of
the claim does hold (last two conjuncts) because all its length fields are
zero. -/
theorem key_pfx_roundtrip_bug :
    encode_key_pfx 256 2 1 = some [0x20, 0, 1, 2, 1] ∧
    decode_key_pfx [0x20, 0, 1, 2, 1] = some ((0, 1, 2), [1]) ∧
    decode_key_pfx_spec [0x20, 0, 1, 2, 1] = some ((256, 2, 1), []) ∧
    encode_key_pfx 1 2 1 = some [0x00, 1, 2, 1] ∧
    decode_key_pfx [0x00, 1, 2, 1] = some ((1, 2, 1), []) :=
  ⟨rfl, rfl, rfl, rfl, rfl⟩

end LevelDBReader
